import Mathlib

/-!
Formal model of the calendar_manager scheduling engine.

This file embeds the core logic of the repository (models.py,
one_on_one_manager.py) as executable Lean definitions and proves the
specified behavioural properties about them.

Modelling conventions:
* Instants (Python datetime values) are integers counting minutes; a
  timedelta of 30 minutes is +30, a day is 1440, a week is 10080.
* Local wall-clock times of day (Python datetime.time) are natural numbers
  of minutes since local midnight, so 09:00 is 540, 12:00 is 720,
  13:00 is 780, 17:00 is 1020; adding 30 minutes to a time of day wraps
  modulo 1440, exactly as Python's (dt + timedelta).time() does.
* Python exceptions are modelled with Except PyErr; a try/except ValueError
  block catches only the valueError constructor.
* The calendar backend (GoogleCalendarClient.search_events) is an external
  collaborator; a query for a time range is modelled as a function argument
  returning the events of the queried calendar that overlap the range, and
  a free-text query as a function from the query string to the event list.
* Python dictionaries (the person directory, the frequency config tables)
  are association lists with unique keys, looked up by first match.
-/

namespace CalendarManager

/-- The two Python exception kinds the embedded code can raise:
ValueError (raised by the cadence resolver, caught by bulk refresh) and
IndexError (raised by name.split()[0] on a token-less name, never caught). -/
inductive PyErr where
  | valueError
  | indexError
deriving DecidableEq, Repr

/-- models.py Attendee: a participant reference on an event. -/
structure Attendee where
  name : String
  email : String
  response_status : String := "needsAction"
deriving DecidableEq, Repr

/-- models.py Attendee.has_declined: response_status == "declined". -/
def Attendee.has_declined (a : Attendee) : Bool :=
  a.response_status == "declined"

/-- models.py Person: identity plus org metadata. -/
structure Person where
  name : String
  email : String
  title : String
  level : String
  start_date : String
  tenure : String
  metro : String
  location : String
  manager : String
  role : Option String := none
deriving DecidableEq, Repr

/-- models.py Event: a calendar entry. -/
structure Event where
  title : String
  id : String
  start_time : Int
  end_time : Int
  attendees : List Attendee := []
  organizer : Option Attendee := none
deriving DecidableEq, Repr

/-- Python name.split()[0]: drop leading whitespace, take the first maximal
run of non-whitespace characters; none when the string has no token, in
which case the Python expression raises IndexError.  This is the shared
body of Attendee.first_name and Person.first_name in models.py. -/
def firstToken (s : String) : Option String :=
  let rest := s.toList.dropWhile Char.isWhitespace
  if rest.isEmpty then none
  else some (String.mk (rest.takeWhile (fun c => !c.isWhitespace)))

/-- Contiguous-sublist test on character lists, the model of Python's
substring operator needle in haystack. -/
def listInfixB (pat : List Char) : List Char → Bool
  | [] => pat.isEmpty
  | c :: rest => pat.isPrefixOf (c :: rest) || listInfixB pat rest

/-- Python needle in haystack on strings. -/
def strContains (hay pat : String) : Bool :=
  listInfixB pat.toList hay.toList

theorem listInfixB_iff (pat : List Char) :
    ∀ l : List Char, listInfixB pat l = true ↔ pat <:+: l := by
  intro l
  induction l with
  | nil => simp [listInfixB, List.isEmpty_iff, List.infix_nil]
  | cons c rest ih => simp [listInfixB, ih, List.infix_cons_iff]

theorem strContains_iff (hay pat : String) :
    strContains hay pat = true ↔ pat.toList <:+: hay.toList :=
  listInfixB_iff pat.toList hay.toList

/-- The meeting_frequency.yaml configuration read by OneOnOneManager:
role → weeks and title → weeks tables, the ignore list and the email
domain.  A table key absent from the YAML file behaves exactly like an
empty table, so both are modelled as association lists. -/
structure MeetingFrequencyConfig where
  roles : List (String × Nat)
  titles : List (String × Nat)
  ignore : List String
  domain : String
deriving DecidableEq, Repr

/-- Python dict lookup table.get(key) on a string-keyed table. -/
def lookupNat (table : List (String × Nat)) (key : String) : Option Nat :=
  match table.find? (fun p => p.1 == key) with
  | some p => some p.2
  | none => none

/-- Python dict lookup for the person directory
(PersonManager._people_by_email). -/
def lookup_person (people : List (String × Person)) (email : String) : Option Person :=
  match people.find? (fun p => p.1 == email) with
  | some p => some p.2
  | none => none

/-- The role branch of OneOnOneManager._get_meeting_frequency_weeks:
Python takes the role table value only when person.role is truthy
(not None and not the empty string) and present in config.roles. -/
def roleCadence (config : MeetingFrequencyConfig) (person : Person) : Option Nat :=
  match person.role with
  | none => none
  | some r => if r == "" then none else lookupNat config.roles r

/-- OneOnOneManager._get_meeting_frequency_weeks: role table first (when the
role is truthy and mapped), then title table, else ValueError. -/
def _get_meeting_frequency_weeks (config : MeetingFrequencyConfig) (person : Person) :
    Except PyErr Nat :=
  match roleCadence config person with
  | some w => .ok w
  | none =>
    match lookupNat config.titles person.title with
    | some w => .ok w
    | none => .error .valueError

/-- OneOnOneManager._is_person_eligible.  The strptime call is modelled by
the abstract parseDate argument: some d when the start_date string parses
to the instant d, none when strptime raises ValueError (which the source
swallows).  now is datetime.now(). -/
def _is_person_eligible (config : MeetingFrequencyConfig) (organizer : Attendee)
    (parseDate : String → Option Int) (now : Int) (person : Person) : Bool :=
  if (match parseDate person.start_date with
      | some d => decide (now < d)
      | none => false) then false
  else if person.manager == organizer.name then false
  else if config.ignore.contains person.email then false
  else true

/-- Lift an optional value into Except, raising e on none; models
evaluating a Python property that can raise. -/
def ofOption {α : Type} (o : Option α) (e : PyErr) : Except PyErr α :=
  match o with
  | some a => .ok a
  | none => .error e

/-- OneOnOneManager._is_one_on_one_with_person: the four title/attendee
conditions.  Accessing person.first_name and organizer.first_name raises
IndexError when the name has no token. -/
def _is_one_on_one_with_person (organizer : Attendee) (event : Event) (person : Person) :
    Except PyErr Bool := do
  let personFirst ← ofOption (firstToken person.name) .indexError
  let organizerFirst ← ofOption (firstToken organizer.name) .indexError
  pure (strContains event.title personFirst &&
        strContains event.title organizerFirst &&
        strContains event.title "/" &&
        (event.attendees.map (fun a => a.email)).contains person.email)

/-- Claim C8: _is_person_eligible returns false exactly when the start date
parses to a strictly future instant, or the manager name equals the
organizer name, or the email is in the ignore list; in particular an
unparseable start date never makes a person ineligible. -/
theorem eligibility_iff (config : MeetingFrequencyConfig) (organizer : Attendee)
    (parseDate : String → Option Int) (now : Int) (person : Person) :
    _is_person_eligible config organizer parseDate now person = false ↔
      ((∃ d, parseDate person.start_date = some d ∧ now < d) ∨
       person.manager = organizer.name ∨
       person.email ∈ config.ignore) := by
  unfold _is_person_eligible
  rcases hp : parseDate person.start_date with _ | d
  · simp only [hp]
    by_cases hm : person.manager = organizer.name
    · simp [hm]
    · by_cases hi : person.email ∈ config.ignore
      · simp [hm, hi]
      · simp [hm, hi]
  · simp only [hp]
    by_cases hlt : now < d
    · have : decide (now < d) = true := decide_eq_true hlt
      simp only [this, if_true, true_iff]
      exact Or.inl ⟨d, rfl, hlt⟩
    · by_cases hm : person.manager = organizer.name
      · simp [hlt, hm]
      · by_cases hi : person.email ∈ config.ignore
        · simp [hlt, hm, hi]
        · simp [hlt, hm, hi]

/-- Evaluation of the classifier when both names have a first token: no
exception is raised and the four checks are evaluated. -/
theorem classifier_eval (organizer : Attendee) (event : Event) (person : Person)
    (personFirst organizerFirst : String)
    (hp : firstToken person.name = some personFirst)
    (ho : firstToken organizer.name = some organizerFirst) :
    _is_one_on_one_with_person organizer event person =
      .ok (strContains event.title personFirst &&
           strContains event.title organizerFirst &&
           strContains event.title "/" &&
           (event.attendees.map (fun a => a.email)).contains person.email) := by
  unfold _is_one_on_one_with_person
  rw [hp, ho]
  rfl

/-- Claim C6: for a person and organizer whose names have a first token,
_is_one_on_one_with_person returns true exactly when the person's first
name, the organizer's first name and the separator "/" all occur as
substrings of the event title and the person's email occurs among the
attendee emails; consequently removing any single condition's witness makes
it return false. -/
theorem one_on_one_classifier_iff (organizer : Attendee) (event : Event) (person : Person)
    (personFirst organizerFirst : String)
    (hp : firstToken person.name = some personFirst)
    (ho : firstToken organizer.name = some organizerFirst) :
    _is_one_on_one_with_person organizer event person = .ok true ↔
      (personFirst.toList <:+: event.title.toList ∧
       organizerFirst.toList <:+: event.title.toList ∧
       ("/").toList <:+: event.title.toList ∧
       person.email ∈ event.attendees.map (fun a => a.email)) := by
  rw [classifier_eval organizer event person personFirst organizerFirst hp ho]
  simp [strContains_iff, and_assoc]

/-- Claim C6 witness input: the "Alice / Bob" event of the specification. -/
def aliceBobEvent : Event :=
  ⟨"Alice / Bob", "ev1", 600, 630, [⟨"Alice Smith", "alice@x.com", "accepted"⟩], none⟩

def alicePerson : Person :=
  ⟨"Alice Smith", "alice@x.com", "Engineer", "L3", "Jan 01 2020", "1y",
   "USD - USA", "SF, CA, US", "Boss B", none⟩

def bobOrganizer : Attendee := ⟨"Bob Jones", "bob@x.com", "needsAction"⟩

theorem one_on_one_classifier_iff_witness :
    firstToken alicePerson.name = some "Alice" ∧
    firstToken bobOrganizer.name = some "Bob" ∧
    (_is_one_on_one_with_person bobOrganizer aliceBobEvent alicePerson = .ok true ↔
      (("Alice").toList <:+: aliceBobEvent.title.toList ∧
       ("Bob").toList <:+: aliceBobEvent.title.toList ∧
       ("/").toList <:+: aliceBobEvent.title.toList ∧
       alicePerson.email ∈ aliceBobEvent.attendees.map (fun a => a.email))) :=
  ⟨rfl, rfl, one_on_one_classifier_iff bobOrganizer aliceBobEvent alicePerson "Alice" "Bob" rfl rfl⟩

/-- Claim C7 (amended): the resolver returns the role-table value whenever
person.role is set to a non-empty string that is present in config.roles,
regardless of any conflicting title entry; when the role branch does not
apply it returns the title-table value when present, and otherwise raises
ValueError - there is no default cadence. -/
theorem cadence_resolution (config : MeetingFrequencyConfig) (person : Person) :
    (∀ r w, person.role = some r → r ≠ "" → lookupNat config.roles r = some w →
      _get_meeting_frequency_weeks config person = .ok w) ∧
    (∀ w, roleCadence config person = none →
      lookupNat config.titles person.title = some w →
      _get_meeting_frequency_weeks config person = .ok w) ∧
    (roleCadence config person = none →
      lookupNat config.titles person.title = none →
      _get_meeting_frequency_weeks config person = .error .valueError) := by
  refine ⟨?_, ?_, ?_⟩
  · intro r w hr hne hw
    unfold _get_meeting_frequency_weeks roleCadence
    simp [hr, hne, hw]
  · intro w hrole ht
    unfold _get_meeting_frequency_weeks
    rw [hrole, ht]
  · intro hrole ht
    unfold _get_meeting_frequency_weeks
    rw [hrole, ht]

/-- Shared concrete configuration for the cadence-resolver claim: the empty
string is a mapped role key with value 1, "Manager" maps to 3 weeks, the
title "Engineer" maps to 2 weeks. -/
def cadenceCfg : MeetingFrequencyConfig :=
  ⟨[("", 1), ("Manager", 3)], [("Engineer", 2)], [], "x.com"⟩

def emptyRolePerson : Person :=
  ⟨"Ann Ames", "ann@x.com", "Engineer", "L3", "Jan 01 2020", "1y",
   "USD - USA", "SF, CA, US", "Boss B", some ""⟩

def managerRolePerson : Person :=
  ⟨"Cal Cole", "cal@x.com", "Engineer", "L5", "Jan 01 2020", "3y",
   "USD - USA", "SF, CA, US", "Boss B", some "Manager"⟩

def titleOnlyPerson : Person :=
  ⟨"Dee Dole", "dee@x.com", "Engineer", "L4", "Jan 01 2020", "2y",
   "USD - USA", "SF, CA, US", "Boss B", none⟩

def unmappedPerson : Person :=
  ⟨"Eve Earl", "eve@x.com", "Chef", "L4", "Jan 01 2020", "2y",
   "USD - USA", "SF, CA, US", "Boss B", none⟩

/-- Claim C7 counterexample: emptyRolePerson.role is set (to the empty
string) and the empty string is present in cadenceCfg.roles with value 1,
while the conflicting title entry maps to 2; contrary to the claim the
resolver returns the title value 2, because the source's truthiness test
if person.role treats an empty-string role as unset. -/
theorem cadence_role_truthiness_counterexample :
    emptyRolePerson.role = some "" ∧
    lookupNat cadenceCfg.roles "" = some 1 ∧
    lookupNat cadenceCfg.titles emptyRolePerson.title = some 2 ∧
    _get_meeting_frequency_weeks cadenceCfg emptyRolePerson = .ok 2 := by
  refine ⟨rfl, rfl, rfl, rfl⟩

theorem cadence_resolution_witness :
    _get_meeting_frequency_weeks cadenceCfg managerRolePerson = .ok 3 ∧
    _get_meeting_frequency_weeks cadenceCfg titleOnlyPerson = .ok 2 ∧
    _get_meeting_frequency_weeks cadenceCfg unmappedPerson = .error .valueError :=
  ⟨(cadence_resolution cadenceCfg managerRolePerson).1 "Manager" 3 rfl (by decide) rfl,
   (cadence_resolution cadenceCfg titleOnlyPerson).2.1 2 rfl rfl,
   (cadence_resolution cadenceCfg unmappedPerson).2.2 rfl rfl⟩

/-- OneOnOneManager.is_person_free.  The person lookup, timezone resolution
and astimezone conversion are the claim's preconditions and are modelled by
their result: localTod is the local wall-clock minute of day of
meeting_time in the person's timezone, and personCalendarEvents is what the
calendar query on the person's own calendar returns for the range
[meeting_time, meeting_time + 30min].  The end-of-meeting comparison uses
the wall-clock time of day 30 minutes later, wrapping modulo one day,
exactly like the source's (local_time + timedelta(minutes=30)).time(). -/
def is_person_free (localTod : Nat) (personCalendarEvents : List Event) : Bool :=
  let meeting_end_time := (localTod + 30) % 1440
  if ¬ (540 ≤ localTod ∧ meeting_end_time ≤ 1020) then false
  else if (720 ≤ localTod ∧ localTod ≤ 780) ∨
          (720 ≤ meeting_end_time ∧ meeting_end_time ≤ 780) then false
  else
    (personCalendarEvents.filter
      (fun e => decide (1 < e.attendees.length) || strContains e.title "Focus")).length == 0

/-- The Availability Checker rule exactly as claim C1 words it: the window
[local, local+30) lies inside business hours [09:00, 17:00), does not
overlap the half-open lunch interval [12:00, 13:00) - merely touching
12:00 as its end or 13:00 as its start is allowed - and no queried event
has more than one attendee or a title containing "Focus". -/
def claimed_is_person_free (localTod : Nat) (personCalendarEvents : List Event) : Bool :=
  (decide (540 ≤ localTod) && decide (localTod + 30 ≤ 1020)) &&
  !(decide (localTod < 780) && decide (720 < localTod + 30)) &&
  personCalendarEvents.all
    (fun e => !(decide (1 < e.attendees.length) || strContains e.title "Focus"))

/-- Claim C1 counterexample: at local 11:30 with an empty event query the
window 11:30-12:00 satisfies all three conditions of the claim (it only
touches 12:00 as its end), yet is_person_free rejects it: the source's
inclusive comparison lunch_start <= meeting_end_time <= lunch_end also
fires when the window merely ends at 12:00. -/
theorem is_person_free_lunch_boundary_counterexample :
    claimed_is_person_free 690 [] = true ∧ is_person_free 690 [] = false := by
  decide

/-- Claim C1 (amended): is_person_free returns true iff (business rule) the
local start is at or after 09:00 and the wall-clock time of day 30 minutes
later - wrapping at midnight - is at or before 17:00, (lunch rule)
neither the local start nor that wrapped end time lies in the closed
interval [12:00, 13:00], so windows ending exactly at 12:00 or starting
exactly at 13:00 are also rejected, and (conflict rule) no event returned
by the query of the person's own calendar for the 30-minute window has
more than one attendee or a title containing "Focus". -/
theorem is_person_free_iff (localTod : Nat) (personCalendarEvents : List Event) :
    is_person_free localTod personCalendarEvents = true ↔
      ((540 ≤ localTod ∧ (localTod + 30) % 1440 ≤ 1020) ∧
       ¬ ((720 ≤ localTod ∧ localTod ≤ 780) ∨
          (720 ≤ (localTod + 30) % 1440 ∧ (localTod + 30) % 1440 ≤ 780)) ∧
       ∀ e ∈ personCalendarEvents,
         ¬ (1 < e.attendees.length ∨ ("Focus").toList <:+: e.title.toList)) := by
  unfold is_person_free
  dsimp only
  split
  · rename_i hbiz
    simp only [Bool.false_eq_true, false_iff]
    intro hc
    exact hbiz hc.1
  · rename_i hbiz
    rw [not_not] at hbiz
    split
    · rename_i hlunch
      simp only [Bool.false_eq_true, false_iff]
      intro hc
      exact hc.2.1 hlunch
    · rename_i hlunch
      simp only [hbiz, hlunch, not_false_iff, true_and]
      rw [beq_iff_eq, List.length_eq_zero, List.filter_eq_nil_iff]
      constructor
      · intro h e he
        have := h e he
        simp only [Bool.or_eq_true, decide_eq_true_eq, strContains_iff] at this
        tauto
      · intro h e he
        have := h e he
        simp only [Bool.or_eq_true, decide_eq_true_eq]
        rw [show (strContains e.title "Focus" = true) ↔
              ("Focus").toList <:+: e.title.toList from strContains_iff _ _]
        tauto

/-- Time-range overlap test against the half-open query range, modelled
from the spec's calendar-query contract: a search over [rangeStart,
rangeEnd] returns the events of the calendar that overlap the range. -/
def overlapsB (rangeStart rangeEnd : Int) (ev : Event) : Bool :=
  decide (ev.start_time < rangeEnd) && decide (rangeStart < ev.end_time)

/-- The time-range calendar query on a calendar modelled as its full event
list. -/
def search_events_range (calendar : List Event) (rangeStart rangeEnd : Int) : List Event :=
  calendar.filter (overlapsB rangeStart rangeEnd)

/-- The conflict list of OneOnOneManager.get_free_slots for one 30-minute
step: events returned by the primary-calendar query for
[step, step + 30min] that have more than one attendee and where no
attendee carrying the organizer's email has declined. -/
def conflicting_events (primary : List Event) (organizer : Attendee) (step : Int) : List Event :=
  (search_events_range primary step (step + 30)).filter
    (fun ev => decide (1 < ev.attendees.length) &&
               !(ev.attendees.any (fun a => a.email == organizer.email && a.has_declined)))

/-- The inner while-loop of get_free_slots: walk a slot block in 30-minute
steps from current while current < stop, keeping the conflict-free steps. -/
def slots_in_block (primary : List Event) (organizer : Attendee) (current stop : Int) : List Int :=
  if current < stop then
    (if (conflicting_events primary organizer current).isEmpty then [current] else []) ++
      slots_in_block primary organizer (current + 30) stop
  else []
termination_by (stop - current).toNat
decreasing_by simp_wf; omega

/-- OneOnOneManager.get_free_slots: walk every slot block returned by the
slot-calendar query, collect the conflict-free steps block by block, and
return the collected list sorted ascending (Python sorted). -/
def get_free_slots (primary : List Event) (organizer : Attendee)
    (time_blocks : List Event) : List Int :=
  if time_blocks.isEmpty then []
  else
    List.insertionSort (fun a b => a ≤ b)
      (time_blocks.foldl
        (fun acc b => acc ++ slots_in_block primary organizer b.start_time b.end_time) [])

theorem slots_in_block_mem (primary : List Event) (organizer : Attendee) :
    ∀ (current stop step : Int),
      step ∈ slots_in_block primary organizer current stop ↔
        ((∃ k : Nat, step = current + 30 * (k : Int) ∧ step < stop) ∧
         (conflicting_events primary organizer step).isEmpty = true) := by
  have H : ∀ (n : Nat) (current stop : Int), (stop - current).toNat ≤ n →
      ∀ step : Int,
        step ∈ slots_in_block primary organizer current stop ↔
          ((∃ k : Nat, step = current + 30 * (k : Int) ∧ step < stop) ∧
           (conflicting_events primary organizer step).isEmpty = true) := by
    intro n
    induction n with
    | zero =>
      intro current stop hn step
      rw [slots_in_block, if_neg (by omega)]
      constructor
      · intro h
        cases h
      · rintro ⟨⟨k, hk, hlt⟩, _⟩
        omega
    | succ n ih =>
      intro current stop hn step
      rw [slots_in_block]
      by_cases hlt : current < stop
      · rw [if_pos hlt, List.mem_append,
            ih (current + 30) stop (by omega) step]
        constructor
        · rintro (h1 | ⟨⟨k, hk, hks⟩, hfree⟩)
          · by_cases hfree : (conflicting_events primary organizer current).isEmpty = true
            · rw [if_pos hfree, List.mem_singleton] at h1
              subst h1
              exact ⟨⟨0, by omega, hlt⟩, hfree⟩
            · rw [if_neg hfree] at h1
              cases h1
          · exact ⟨⟨k + 1, by push_cast; omega, hks⟩, hfree⟩
        · rintro ⟨⟨k, hk, hks⟩, hfree⟩
          cases k with
          | zero =>
            have hstep : step = current := by omega
            subst hstep
            rw [if_pos hfree]
            exact Or.inl (List.mem_singleton.mpr rfl)
          | succ k =>
            refine Or.inr ⟨⟨k, by push_cast at hk ⊢; omega, hks⟩, hfree⟩
      · rw [if_neg hlt]
        constructor
        · intro h
          cases h
        · rintro ⟨⟨k, hk, hks⟩, _⟩
          omega
  intro current stop step
  exact H (stop - current).toNat current stop le_rfl step


theorem conflicting_events_isEmpty_iff (primary : List Event) (organizer : Attendee)
    (step : Int) :
    (conflicting_events primary organizer step).isEmpty = true ↔
      ∀ ev ∈ primary, ev.start_time < step + 30 → step < ev.end_time →
        1 < ev.attendees.length →
        ∃ a ∈ ev.attendees, a.email = organizer.email ∧ a.response_status = "declined" := by
  unfold conflicting_events search_events_range overlapsB
  simp only [List.isEmpty_iff, List.filter_eq_nil_iff, List.mem_filter, Bool.and_eq_true,
    decide_eq_true_eq, Bool.not_eq_true', List.any_eq_true, Attendee.has_declined,
    beq_iff_eq, not_and, and_imp]
  constructor
  · intro h ev hev hs he hlen
    have hne := h ev hev hs he hlen
    have hany : (ev.attendees.any
        (fun a => a.email == organizer.email && a.response_status == "declined")) = true := by
      revert hne
      cases ev.attendees.any
          (fun a => a.email == organizer.email && a.response_status == "declined") <;> simp
    rcases List.any_eq_true.mp hany with ⟨a, ha, hpa⟩
    simp only [Bool.and_eq_true, beq_iff_eq] at hpa
    exact ⟨a, ha, hpa.1, hpa.2⟩
  · intro h ev hev hs he hlen hfalse
    rcases h ev hev hs he hlen with ⟨a, ha, hae, har⟩
    have hany : (ev.attendees.any
        (fun a => a.email == organizer.email && a.response_status == "declined")) = true :=
      List.any_eq_true.mpr ⟨a, ha, by simp [hae, har]⟩
    rw [hany] at hfalse
    cases hfalse

theorem mem_foldl_append {α β : Type} (f : β → List α) (x : α) :
    ∀ (bs : List β) (acc : List α),
      (x ∈ bs.foldl (fun acc b => acc ++ f b) acc ↔ x ∈ acc ∨ ∃ b ∈ bs, x ∈ f b) := by
  intro bs
  induction bs with
  | nil => simp
  | cons b rest ih =>
    intro acc
    rw [List.foldl_cons, ih (acc ++ f b)]
    simp only [List.mem_append, List.mem_cons]
    constructor
    · rintro ((h | h) | ⟨b2, hb2, hx⟩)
      · exact Or.inl h
      · exact Or.inr ⟨b, Or.inl rfl, h⟩
      · exact Or.inr ⟨b2, Or.inr hb2, hx⟩
    · rintro (h | ⟨b2, hb2 | hb2, hx⟩)
      · exact Or.inl (Or.inl h)
      · subst hb2
        exact Or.inl (Or.inr hx)
      · exact Or.inr ⟨b2, hb2, hx⟩

/-- Claim C3: a 30-minute instant is in the output of get_free_slots
exactly when it is a walked step of some slot block (start + a whole
number of 30-minute increments, strictly before the block end) and every
event returned by the primary-calendar query for [step, step + 30min]
that has more than one attendee carries an attendee with the organizer's
email who has declined; in particular a step whose overlapping events all
have a single attendee (focus blocks) is always included. -/
theorem free_slot_step_iff (primary : List Event) (organizer : Attendee)
    (time_blocks : List Event) (step : Int) :
    step ∈ get_free_slots primary organizer time_blocks ↔
      ((∃ b ∈ time_blocks, ∃ k : Nat, step = b.start_time + 30 * (k : Int) ∧ step < b.end_time) ∧
       ∀ ev ∈ primary, ev.start_time < step + 30 → step < ev.end_time →
         1 < ev.attendees.length →
         ∃ a ∈ ev.attendees, a.email = organizer.email ∧ a.response_status = "declined") := by
  unfold get_free_slots
  split
  · rename_i hempty
    rw [List.isEmpty_iff] at hempty
    subst hempty
    simp
  · rw [List.Perm.mem_iff (List.perm_insertionSort _ _),
      mem_foldl_append (fun b => slots_in_block primary organizer b.start_time b.end_time)
        step time_blocks []]
    simp only [List.not_mem_nil, false_or]
    constructor
    · rintro ⟨b, hb, hmem⟩
      rcases (slots_in_block_mem primary organizer b.start_time b.end_time step).mp hmem
        with ⟨⟨k, hk, hks⟩, hfree⟩
      exact ⟨⟨b, hb, k, hk, hks⟩,
        (conflicting_events_isEmpty_iff primary organizer step).mp hfree⟩
    · rintro ⟨⟨b, hb, k, hk, hks⟩, hfree⟩
      exact ⟨b, hb, (slots_in_block_mem primary organizer b.start_time b.end_time step).mpr
        ⟨⟨k, hk, hks⟩, (conflicting_events_isEmpty_iff primary organizer step).mpr hfree⟩⟩

/-- Claim C2 (amended): the output of get_free_slots is sorted in
non-decreasing order whatever the slot blocks are; it is not deduplicated
(see the counterexample), so equal adjacent instants can occur when
blocks overlap. -/
theorem get_free_slots_sorted (primary : List Event) (organizer : Attendee)
    (time_blocks : List Event) :
    (get_free_slots primary organizer time_blocks).Sorted (fun a b => a ≤ b) := by
  unfold get_free_slots
  split
  · exact List.sorted_nil
  · exact List.sorted_insertionSort _ _

/-- A slot block 00:00-00:30 on the slot calendar, listed twice. -/
def slotBlock : Event := ⟨"1:1 Slot", "blk", 0, 30, [], none⟩

/-- Claim C2 counterexample: with an empty primary calendar and the same
slot block returned twice by the slot-calendar query (overlapping blocks),
get_free_slots returns the instant 0 twice - the output is sorted but not
deduplicated, contradicting the claimed absence of duplicates. -/
theorem get_free_slots_duplicate_counterexample :
    get_free_slots [] bobOrganizer [slotBlock, slotBlock] = [0, 0] ∧
    ¬ (get_free_slots [] bobOrganizer [slotBlock, slotBlock]).Nodup := by
  have h30 : slots_in_block [] bobOrganizer 30 30 = [] := by
    rw [slots_in_block]
    norm_num
  have h1 : slots_in_block [] bobOrganizer 0 30 = [0] := by
    rw [slots_in_block]
    norm_num [conflicting_events, search_events_range, h30]
  have h2 : get_free_slots [] bobOrganizer [slotBlock, slotBlock] = [0, 0] := by
    unfold get_free_slots
    norm_num [slotBlock, h1]
  rw [h2]
  exact ⟨rfl, by decide⟩

/-- The filtering loop of OneOnOneManager.get_last_by_username: keep the
queried events classified as 1:1s where not every attendee has declined;
an exception from the classifier aborts the loop.  The two Python
continue-guards (classifier, then all-declined) are merged into one
conjunction; the second test is total so the order of evaluation is
unobservable. -/
def filter_one_on_ones (organizer : Attendee) (person : Person) :
    List Event → Except PyErr (List Event)
  | [] => .ok []
  | event :: rest =>
    match _is_one_on_one_with_person organizer event person with
    | .error e => .error e
    | .ok isOne =>
      if isOne && !(event.attendees.all (fun a => a.has_declined)) then
        match filter_one_on_ones organizer person rest with
        | .error e => .error e
        | .ok tail => .ok (event :: tail)
      else
        filter_one_on_ones organizer person rest

/-- An event qualifies for the History Lookup when the four classifier
conditions hold (expressed with the precomputed first names pf and orgF)
and not every attendee has declined. -/
def qualifiesB (person : Person) (pf orgF : String) (event : Event) : Bool :=
  (strContains event.title pf && strContains event.title orgF &&
   strContains event.title "/" &&
   (event.attendees.map (fun a => a.email)).contains person.email) &&
  !(event.attendees.all (fun a => a.has_declined))

theorem filter_one_on_ones_eq (organizer : Attendee) (person : Person)
    (pf orgF : String) (hp : firstToken person.name = some pf)
    (ho : firstToken organizer.name = some orgF) :
    ∀ events : List Event,
      filter_one_on_ones organizer person events =
        .ok (events.filter (qualifiesB person pf orgF)) := by
  intro events
  induction events with
  | nil => rfl
  | cons e rest ih =>
    unfold filter_one_on_ones
    rw [classifier_eval organizer e person pf orgF hp ho, ih]
    dsimp only
    rw [show ((strContains e.title pf && strContains e.title orgF &&
        strContains e.title "/" &&
        (e.attendees.map (fun a => a.email)).contains person.email) &&
        !(e.attendees.all (fun a => a.has_declined))) = qualifiesB person pf orgF e from rfl]
    by_cases hq : qualifiesB person pf orgF e = true
    · simp [List.filter_cons, hq]
    · simp only [Bool.not_eq_true] at hq
      simp [List.filter_cons, hq]

/-- The descending sort order of get_last_by_username: most recent
start_time first (Python sort with reverse=True on the start_time key). -/
def laterFirst (a b : Event) : Prop := b.start_time ≤ a.start_time

instance : DecidableRel laterFirst :=
  fun a b => inferInstanceAs (Decidable (b.start_time ≤ a.start_time))

instance : IsTotal Event laterFirst := ⟨fun a b => le_total b.start_time a.start_time⟩

instance : IsTrans Event laterFirst := ⟨fun _ _ _ h1 h2 => le_trans h2 h1⟩

/-- OneOnOneManager.get_last_by_username.  searchByName models the
calendar query for the lookback window [now - days_back, now] with the
person's first name as the free-text search term; evaluating the first
name raises IndexError on a token-less name before any query is made. -/
def get_last_by_username (config : MeetingFrequencyConfig) (organizer : Attendee)
    (people : List (String × Person)) (searchByName : String → List Event)
    (username : String) : Except PyErr (Option Event) :=
  match lookup_person people (username ++ "@" ++ config.domain) with
  | none => .ok none
  | some person =>
    match firstToken person.name with
    | none => .error .indexError
    | some queryName =>
      match filter_one_on_ones organizer person (searchByName queryName) with
      | .error e => .error e
      | .ok one_on_ones => .ok (List.insertionSort laterFirst one_on_ones).head?

theorem get_last_eval (config : MeetingFrequencyConfig) (organizer : Attendee)
    (people : List (String × Person)) (searchByName : String → List Event)
    (username : String) (person : Person) (pf orgF : String)
    (hperson : lookup_person people (username ++ "@" ++ config.domain) = some person)
    (hp : firstToken person.name = some pf)
    (ho : firstToken organizer.name = some orgF) :
    get_last_by_username config organizer people searchByName username =
      .ok (List.insertionSort laterFirst
            ((searchByName pf).filter (qualifiesB person pf orgF))).head? := by
  unfold get_last_by_username
  rw [hperson]
  dsimp only
  rw [hp]
  dsimp only
  rw [filter_one_on_ones_eq organizer person pf orgF hp ho]

/-- Claim C5: when the looked-up person exists and both first names have a
token, get_last_by_username either returns none and no queried event
qualifies (is a classified 1:1 with at least one attendee who has not
declined), or it returns a qualifying queried event whose start_time is
greatest among all qualifying events; an event in which every attendee has
declined never qualifies, whatever its start time. -/
theorem history_lookup_spec (config : MeetingFrequencyConfig) (organizer : Attendee)
    (people : List (String × Person)) (searchByName : String → List Event)
    (username : String) (person : Person) (pf orgF : String)
    (hperson : lookup_person people (username ++ "@" ++ config.domain) = some person)
    (hp : firstToken person.name = some pf)
    (ho : firstToken organizer.name = some orgF) :
    (get_last_by_username config organizer people searchByName username = .ok none ∧
       ∀ e ∈ searchByName pf, qualifiesB person pf orgF e = false) ∨
    (∃ e, get_last_by_username config organizer people searchByName username = .ok (some e) ∧
       e ∈ searchByName pf ∧ qualifiesB person pf orgF e = true ∧
       ∀ e2 ∈ searchByName pf, qualifiesB person pf orgF e2 = true →
         e2.start_time ≤ e.start_time) := by
  rw [get_last_eval config organizer people searchByName username person pf orgF hperson hp ho]
  have hperm := List.perm_insertionSort laterFirst
    ((searchByName pf).filter (qualifiesB person pf orgF))
  have hsorted := List.sorted_insertionSort laterFirst
    ((searchByName pf).filter (qualifiesB person pf orgF))
  rcases hsort : List.insertionSort laterFirst
      ((searchByName pf).filter (qualifiesB person pf orgF)) with _ | ⟨e, tail⟩
  · left
    rw [hsort] at hperm
    constructor
    · rfl
    · intro e2 he2
      by_contra hq
      rw [Bool.not_eq_false] at hq
      have : e2 ∈ ([] : List Event) := hperm.mem_iff.mpr (List.mem_filter.mpr ⟨he2, hq⟩)
      cases this
  · right
    rw [hsort] at hperm hsorted
    have hmax := (List.sorted_cons.mp hsorted).1
    have hmeme : e ∈ (searchByName pf).filter (qualifiesB person pf orgF) :=
      hperm.mem_iff.mp (List.mem_cons_self e tail)
    rcases List.mem_filter.mp hmeme with ⟨hin, hq⟩
    refine ⟨e, rfl, hin, hq, ?_⟩
    intro e2 he2 hq2
    have : e2 ∈ e :: tail := hperm.mem_iff.mpr (List.mem_filter.mpr ⟨he2, hq2⟩)
    rcases List.mem_cons.mp this with heq | hmem2
    · subst heq
      exact le_refl _
    · exact hmax e2 hmem2

/-- Concrete History Lookup scenario: three qualifying 1:1s at instants
300, 200 and 100, and a fully-declined event at 400. -/
def histEvent1 : Event :=
  ⟨"Alice / Bob", "e1", 300, 330, [⟨"Alice Smith", "alice@x.com", "accepted"⟩], none⟩

def histEvent2 : Event :=
  ⟨"Alice / Bob", "e2", 200, 230, [⟨"Alice Smith", "alice@x.com", "tentative"⟩], none⟩

def histEvent3 : Event :=
  ⟨"Alice / Bob", "e3", 100, 130, [⟨"Alice Smith", "alice@x.com", "needsAction"⟩], none⟩

def histEventDeclined : Event :=
  ⟨"Alice / Bob", "e4", 400, 430, [⟨"Alice Smith", "alice@x.com", "declined"⟩], none⟩

def histEvents : List Event := [histEvent2, histEventDeclined, histEvent1, histEvent3]

def histPeople : List (String × Person) := [("alice@x.com", alicePerson)]

theorem history_lookup_spec_witness :
    (get_last_by_username cadenceCfg bobOrganizer histPeople (fun _ => histEvents)
        "alice" = .ok none ∧
       ∀ e ∈ histEvents, qualifiesB alicePerson "Alice" "Bob" e = false) ∨
    (∃ e, get_last_by_username cadenceCfg bobOrganizer histPeople (fun _ => histEvents)
        "alice" = .ok (some e) ∧
       e ∈ histEvents ∧ qualifiesB alicePerson "Alice" "Bob" e = true ∧
       ∀ e2 ∈ histEvents, qualifiesB alicePerson "Alice" "Bob" e2 = true →
         e2.start_time ≤ e.start_time) :=
  history_lookup_spec cadenceCfg bobOrganizer histPeople (fun _ => histEvents)
    "alice" alicePerson "Alice" "Bob" rfl rfl rfl

/-- The base-date rule of get_next_recommended_date: the last meeting's
start_time, or now - days_back when no last meeting was found. -/
def base_date (now days_back : Int) : Option Event → Int
  | some m => m.start_time
  | none => now - days_back * 1440

/-- OneOnOneManager.get_next_recommended_date: resolve the person, fetch
the last 1:1 (exceptions propagate), resolve the cadence (ValueError
propagates), and add cadence weeks to the base date. -/
def get_next_recommended_date (config : MeetingFrequencyConfig) (organizer : Attendee)
    (people : List (String × Person)) (searchByName : String → List Event)
    (now : Int) (username : String) (days_back : Int) : Except PyErr (Option Int) :=
  match lookup_person people (username ++ "@" ++ config.domain) with
  | none => .ok none
  | some person =>
    match get_last_by_username config organizer people searchByName username with
    | .error e => .error e
    | .ok last_meeting =>
      match _get_meeting_frequency_weeks config person with
      | .error e => .error e
      | .ok frequency_weeks =>
        .ok (some (base_date now days_back last_meeting + (frequency_weeks : Int) * 10080))

/-- Claim C4: for a known person whose cadence resolves to w weeks and
whose History Lookup returns lastOpt, the recommended next date is
base + w weeks, with base the last meeting's start_time when lastOpt is
some meeting and now - days_back when it is none. -/
theorem next_recommended_date_rule (config : MeetingFrequencyConfig) (organizer : Attendee)
    (people : List (String × Person)) (searchByName : String → List Event)
    (now : Int) (username : String) (days_back : Int) (person : Person)
    (w : Nat) (lastOpt : Option Event)
    (hperson : lookup_person people (username ++ "@" ++ config.domain) = some person)
    (hlast : get_last_by_username config organizer people searchByName username = .ok lastOpt)
    (hfreq : _get_meeting_frequency_weeks config person = .ok w) :
    get_next_recommended_date config organizer people searchByName now username days_back =
      .ok (some (base_date now days_back lastOpt + (w : Int) * 10080)) := by
  unfold get_next_recommended_date
  rw [hperson]
  dsimp only
  rw [hlast]
  dsimp only
  rw [hfreq]

theorem next_recommended_date_rule_witness :
    get_next_recommended_date cadenceCfg bobOrganizer histPeople (fun _ => [histEvent1])
        50000 "alice" 30 = .ok (some (300 + (2 : Int) * 10080)) ∧
    get_next_recommended_date cadenceCfg bobOrganizer histPeople (fun _ => [])
        50000 "alice" 30 = .ok (some ((50000 - 30 * 1440) + (2 : Int) * 10080)) :=
  ⟨next_recommended_date_rule cadenceCfg bobOrganizer histPeople (fun _ => [histEvent1])
      50000 "alice" 30 alicePerson 2 (some histEvent1) rfl rfl rfl,
   next_recommended_date_rule cadenceCfg bobOrganizer histPeople (fun _ => [])
      50000 "alice" 30 alicePerson 2 none rfl rfl rfl⟩

/-- Python email.split at the first at-sign, index 0: the username part
used by refresh_next_meetings (the whole string when there is no at-sign). -/
def local_part (email : String) : String :=
  String.mk (email.toList.takeWhile (fun c => c ≠ '@'))

/-- The loop of OneOnOneManager.refresh_next_meetings over the directory
items, with the directory used for per-person lookups held fixed:
ineligible people are skipped; a ValueError (no cadence mapping) is caught
and the person skipped; any other exception propagates and aborts the
whole refresh; a person whose get_next_recommended_date returns None is
not added; otherwise the email is mapped to the date part (whole days,
floor division by 1440 minutes) of the recommended datetime. -/
def refresh_go (config : MeetingFrequencyConfig) (organizer : Attendee)
    (people : List (String × Person)) (searchByName : String → List Event)
    (parseDate : String → Option Int) (now : Int) (days_back : Int) :
    List (String × Person) → Except PyErr (List (String × Int))
  | [] => .ok []
  | (email, person) :: rest =>
    if _is_person_eligible config organizer parseDate now person then
      match get_next_recommended_date config organizer people searchByName now
          (local_part email) days_back with
      | .error .valueError =>
        refresh_go config organizer people searchByName parseDate now days_back rest
      | .error e => .error e
      | .ok none =>
        refresh_go config organizer people searchByName parseDate now days_back rest
      | .ok (some next_date) =>
        match refresh_go config organizer people searchByName parseDate now days_back rest with
        | .error e => .error e
        | .ok tail => .ok ((email, Int.fdiv next_date 1440) :: tail)
    else
      refresh_go config organizer people searchByName parseDate now days_back rest

/-- OneOnOneManager.refresh_next_meetings: iterate the whole directory. -/
def refresh_next_meetings (config : MeetingFrequencyConfig) (organizer : Attendee)
    (searchByName : String → List Event) (parseDate : String → Option Int)
    (now : Int) (days_back : Int) (people : List (String × Person)) :
    Except PyErr (List (String × Int)) :=
  refresh_go config organizer people searchByName parseDate now days_back people

theorem freq_error_valueError (config : MeetingFrequencyConfig) (person : Person) (e : PyErr)
    (h : _get_meeting_frequency_weeks config person = .error e) : e = .valueError := by
  unfold _get_meeting_frequency_weeks at h
  rcases hrc : roleCadence config person with _ | w <;> rw [hrc] at h
  · rcases ht : lookupNat config.titles person.title with _ | w <;> rw [ht] at h
    · exact (Except.error.inj h).symm
    · exact Except.noConfusion h
  · exact Except.noConfusion h

theorem get_next_eval_ok (config : MeetingFrequencyConfig) (organizer : Attendee)
    (people : List (String × Person)) (searchByName : String → List Event)
    (now : Int) (username : String) (days_back : Int) (person : Person)
    (pf orgF : String) (w : Nat)
    (hperson : lookup_person people (username ++ "@" ++ config.domain) = some person)
    (hp : firstToken person.name = some pf)
    (ho : firstToken organizer.name = some orgF)
    (hfreq : _get_meeting_frequency_weeks config person = .ok w) :
    get_next_recommended_date config organizer people searchByName now username days_back =
      .ok (some (base_date now days_back
          (List.insertionSort laterFirst
            ((searchByName pf).filter (qualifiesB person pf orgF))).head? +
        (w : Int) * 10080)) := by
  unfold get_next_recommended_date
  rw [hperson]
  dsimp only
  rw [get_last_eval config organizer people searchByName username person pf orgF hperson hp ho]
  dsimp only
  rw [hfreq]

theorem get_next_eval_err (config : MeetingFrequencyConfig) (organizer : Attendee)
    (people : List (String × Person)) (searchByName : String → List Event)
    (now : Int) (username : String) (days_back : Int) (person : Person)
    (pf orgF : String)
    (hperson : lookup_person people (username ++ "@" ++ config.domain) = some person)
    (hp : firstToken person.name = some pf)
    (ho : firstToken organizer.name = some orgF)
    (hfreq : _get_meeting_frequency_weeks config person = .error .valueError) :
    get_next_recommended_date config organizer people searchByName now username days_back =
      .error .valueError := by
  unfold get_next_recommended_date
  rw [hperson]
  dsimp only
  rw [get_last_eval config organizer people searchByName username person pf orgF hperson hp ho]
  dsimp only
  rw [hfreq]

/-- A directory entry is kept by the refresh exactly when the person is
eligible and the cadence resolver succeeds. -/
def kept (config : MeetingFrequencyConfig) (organizer : Attendee)
    (parseDate : String → Option Int) (now : Int) (ep : String × Person) : Bool :=
  _is_person_eligible config organizer parseDate now ep.2 &&
  (match _get_meeting_frequency_weeks config ep.2 with
   | .ok _ => true
   | .error _ => false)

theorem refresh_go_spec (config : MeetingFrequencyConfig) (organizer : Attendee)
    (people : List (String × Person)) (searchByName : String → List Event)
    (parseDate : String → Option Int) (now : Int) (days_back : Int) (orgF : String)
    (ho : firstToken organizer.name = some orgF) :
    ∀ entries : List (String × Person),
      (∀ ep ∈ entries,
        lookup_person people (local_part ep.1 ++ "@" ++ config.domain) = some ep.2) →
      (∀ ep ∈ entries, (firstToken (ep.2).name).isSome = true) →
      ∃ m, refresh_go config organizer people searchByName parseDate now days_back entries =
          .ok m ∧
        m.map Prod.fst = (entries.filter (kept config organizer parseDate now)).map Prod.fst ∧
        ∀ p ∈ m, ∃ d, get_next_recommended_date config organizer people searchByName now
            (local_part p.1) days_back = .ok (some d) ∧ p.2 = Int.fdiv d 1440 := by
  intro entries
  induction entries with
  | nil =>
    intro _ _
    refine ⟨[], rfl, rfl, ?_⟩
    intro p hp
    cases hp
  | cons ep rest ih =>
    intro hdom hnames
    obtain ⟨m2, hm2, hmap2, hval2⟩ := ih (fun x hx => hdom x (List.mem_cons_of_mem ep hx))
      (fun x hx => hnames x (List.mem_cons_of_mem ep hx))
    have hL := hdom ep (List.mem_cons_self ep rest)
    have hN := hnames ep (List.mem_cons_self ep rest)
    obtain ⟨email, person⟩ := ep
    rcases hpf : firstToken person.name with _ | pf
    · rw [hpf] at hN
      cases hN
    by_cases helig : _is_person_eligible config organizer parseDate now person = true
    · rcases hfreq : _get_meeting_frequency_weeks config person with e | w
      · have he : e = .valueError := freq_error_valueError config person e hfreq
        subst he
        have hnext := get_next_eval_err config organizer people searchByName now
          (local_part email) days_back person pf orgF hL hpf ho hfreq
        refine ⟨m2, ?_, ?_, hval2⟩
        · unfold refresh_go
          rw [if_pos helig, hnext]
          dsimp only
          exact hm2
        · rw [List.filter_cons_of_neg (by simp [kept, helig, hfreq])]
          exact hmap2
      · have hnext := get_next_eval_ok config organizer people searchByName now
          (local_part email) days_back person pf orgF w hL hpf ho hfreq
        refine ⟨(email, Int.fdiv (base_date now days_back
            (List.insertionSort laterFirst ((searchByName pf).filter
              (qualifiesB person pf orgF))).head? + (w : Int) * 10080) 1440) :: m2,
          ?_, ?_, ?_⟩
        · unfold refresh_go
          rw [if_pos helig, hnext]
          dsimp only
          rw [hm2]
        · rw [List.filter_cons_of_pos (by simp [kept, helig, hfreq])]
          dsimp only [List.map_cons]
          rw [hmap2]
        · intro p hp
          rcases List.mem_cons.mp hp with heq | hmem
          · subst heq
            exact ⟨_, hnext, rfl⟩
          · exact hval2 p hmem
    · have hf : _is_person_eligible config organizer parseDate now person = false := by
        revert helig
        cases _is_person_eligible config organizer parseDate now person <;> simp
      refine ⟨m2, ?_, ?_, hval2⟩
      · unfold refresh_go
        rw [if_neg helig]
        exact hm2
      · rw [List.filter_cons_of_neg (by simp [kept, hf])]
        exact hmap2

/-- Claim C9 (amended): provided every directory email re-resolves under
the configured domain (looking up local-part at-domain returns the same
entry) and every person's name - and the organizer's - has a first token,
refresh_next_meetings never aborts: cadence-mapping failures (ValueError)
are caught per person, ineligible people and people without a cadence are
skipped, and the resulting snapshot maps exactly the emails of the
remaining people (in directory order) to the date part - whole days, no
time of day - of their recommended next date.  Without the domain proviso
an eligible, cadence-mapped person can be silently dropped (see the
counterexample). -/
theorem refresh_due_dates_spec (config : MeetingFrequencyConfig) (organizer : Attendee)
    (searchByName : String → List Event) (parseDate : String → Option Int)
    (now : Int) (days_back : Int) (people : List (String × Person)) (orgF : String)
    (ho : firstToken organizer.name = some orgF)
    (hdom : ∀ ep ∈ people,
      lookup_person people (local_part ep.1 ++ "@" ++ config.domain) = some ep.2)
    (hnames : ∀ ep ∈ people, (firstToken (ep.2).name).isSome = true) :
    ∃ m, refresh_next_meetings config organizer searchByName parseDate now days_back people =
        .ok m ∧
      m.map Prod.fst = (people.filter (kept config organizer parseDate now)).map Prod.fst ∧
      ∀ p ∈ m, ∃ d, get_next_recommended_date config organizer people searchByName now
          (local_part p.1) days_back = .ok (some d) ∧ p.2 = Int.fdiv d 1440 :=
  refresh_go_spec config organizer people searchByName parseDate now days_back orgF ho
    people hdom hnames

/-- An eligible person with a mapped cadence whose email is not under the
configured domain x.com. -/
def foreignPerson : Person :=
  ⟨"Frank Frost", "bob@other.com", "Engineer", "L4", "Jan 01 2020", "2y",
   "USD - USA", "SF, CA, US", "Boss B", none⟩

/-- Claim C9 counterexample: foreignPerson is eligible and has a cadence
mapping (title Engineer, 2 weeks), yet the refresh returns an empty
snapshot: the per-person re-lookup rebuilds the email as
local-part at-domain ("bob" at x.com), misses the directory key
bob@other.com, get_next_recommended_date returns None, and the person is
silently dropped - so the snapshot does not map exactly the emails of the
eligible, cadence-mapped people. -/
theorem refresh_domain_mismatch_counterexample :
    _is_person_eligible cadenceCfg bobOrganizer (fun _ => none) 0 foreignPerson = true ∧
    _get_meeting_frequency_weeks cadenceCfg foreignPerson = .ok 2 ∧
    refresh_next_meetings cadenceCfg bobOrganizer (fun _ => []) (fun _ => none) 0 30
      [("bob@other.com", foreignPerson)] = .ok [] := by
  refine ⟨rfl, rfl, rfl⟩

/-- Claim C9 witness directory: one person reporting to the organizer
(ineligible), one eligible engineer (kept), one eligible person with an
unmapped title (cadence failure, skipped). -/
def inaPerson : Person :=
  ⟨"Ina Iris", "ina@x.com", "Engineer", "L3", "Jan 01 2020", "1y",
   "USD - USA", "SF, CA, US", "Bob Jones", none⟩

def tiaPerson : Person :=
  ⟨"Tia Torres", "tia@x.com", "Engineer", "L4", "Jan 01 2020", "2y",
   "USD - USA", "SF, CA, US", "Boss B", none⟩

def ulfPerson : Person :=
  ⟨"Ulf Urban", "ulf@x.com", "Chef", "L4", "Jan 01 2020", "2y",
   "USD - USA", "SF, CA, US", "Boss B", none⟩

def refreshPeople : List (String × Person) :=
  [("ina@x.com", inaPerson), ("tia@x.com", tiaPerson), ("ulf@x.com", ulfPerson)]

theorem refresh_due_dates_spec_witness :
    ∃ m, refresh_next_meetings cadenceCfg bobOrganizer (fun _ => []) (fun _ => none) 0 0
        refreshPeople = .ok m ∧
      m.map Prod.fst =
        (refreshPeople.filter (kept cadenceCfg bobOrganizer (fun _ => none) 0)).map Prod.fst ∧
      ∀ p ∈ m, ∃ d, get_next_recommended_date cadenceCfg bobOrganizer refreshPeople
          (fun _ => []) 0 (local_part p.1) 0 = .ok (some d) ∧ p.2 = Int.fdiv d 1440 :=
  refresh_due_dates_spec cadenceCfg bobOrganizer (fun _ => []) (fun _ => none) 0 0
    refreshPeople "Bob" rfl (by decide) (by decide)

/-- Claim C10: the derived first name is only partially defined - for any
name that is empty or consists solely of whitespace there is no first
token, so the Python property raises IndexError.  Consequently, for an
eligible person with such a name, the History Lookup fails before it can
query the calendar, and through it the bulk refresh - whose try/except
catches only ValueError - fails as a whole instead of skipping the
person. -/
theorem first_name_failure_aborts (config : MeetingFrequencyConfig) (organizer : Attendee)
    (searchByName : String → List Event) (parseDate : String → Option Int)
    (now : Int) (days_back : Int) (email : String) (person : Person)
    (hws : person.name.toList.all Char.isWhitespace = true)
    (hlookup : lookup_person [(email, person)] (local_part email ++ "@" ++ config.domain) =
      some person)
    (helig : _is_person_eligible config organizer parseDate now person = true) :
    firstToken person.name = none ∧
    get_last_by_username config organizer [(email, person)] searchByName (local_part email) =
      .error .indexError ∧
    refresh_next_meetings config organizer searchByName parseDate now days_back
      [(email, person)] = .error .indexError := by
  have htok : firstToken person.name = none := by
    unfold firstToken
    have hdw : person.name.toList.dropWhile Char.isWhitespace = [] :=
      List.dropWhile_eq_nil_iff.mpr (fun x hx => by
        have := List.all_eq_true.mp hws x hx
        simpa using this)
    simp [hdw]
    intro x hx
    exact List.all_eq_true.mp hws x hx
  have hlast : get_last_by_username config organizer [(email, person)] searchByName
      (local_part email) = .error .indexError := by
    unfold get_last_by_username
    rw [hlookup]
    dsimp only
    rw [htok]
  have hnext : get_next_recommended_date config organizer [(email, person)] searchByName now
      (local_part email) days_back = .error .indexError := by
    unfold get_next_recommended_date
    rw [hlookup]
    dsimp only
    rw [hlast]
  refine ⟨htok, hlast, ?_⟩
  unfold refresh_next_meetings refresh_go
  rw [if_pos helig, hnext]

/-- A person whose name is a single space: no first token. -/
def blankPerson : Person :=
  ⟨" ", "sam@x.com", "Engineer", "L3", "Jan 01 2020", "1y",
   "USD - USA", "SF, CA, US", "Boss B", none⟩

theorem first_name_failure_aborts_witness :
    firstToken blankPerson.name = none ∧
    get_last_by_username cadenceCfg bobOrganizer [("sam@x.com", blankPerson)] (fun _ => [])
      (local_part "sam@x.com") = .error .indexError ∧
    refresh_next_meetings cadenceCfg bobOrganizer (fun _ => []) (fun _ => none) 0 30
      [("sam@x.com", blankPerson)] = .error .indexError :=
  first_name_failure_aborts cadenceCfg bobOrganizer (fun _ => []) (fun _ => none) 0 30
    "sam@x.com" blankPerson (by decide) (by decide) (by decide)
